import Mathlib

/-
  Verification development for credits_updater.py — a tool that scans source
  files for license-header comments, classifies each file against a reference
  LGPL text or a static bucket table, and renders an aggregated credits
  document.  All definitions below are shallow embeddings of the Python
  source: regular-expression searches over fixed patterns become substring or
  prefix predicates, file reads become explicit line lists (readline past end
  of file yields the empty string), and the two dictionaries become
  association lists with the same insertion/update semantics.
-/

set_option linter.all false

namespace CreditsUpdaterModel

/-- Model of re.search for a fixed literal pattern: substring containment. -/
def strContains (s pat : String) : Bool := decide (pat.data <:+: s.data)

/-- str.endswith (on the character list, so that it evaluates by kernel
reduction). -/
def strEndsWith (s suffix : String) : Bool := decide (suffix.data <:+ s.data)

/-- C_COMMENT_BLOCK_START search: the pattern is a slash followed by one or
more stars, so a match exists iff the line contains a slash-star pair. -/
def cStart (s : String) : Bool := strContains s "/*"

/-- C_COMMENT_BLOCK_END search: the line contains a star-slash pair. -/
def cEnd (s : String) : Bool := strContains s "*/"

/-- ASM_COMMENT_PRE search: the pattern is anchored at the start, so a match
exists iff the line begins with a semicolon or an at-sign. -/
def asmCommentPre (s : String) : Bool :=
  match s.data with
  | [] => false
  | c :: _ => c == ';' || c == '@'

/-- ASM_NOT_COMMENT search: the line has a first character and it is neither
a semicolon nor an at-sign. -/
def asmNotComment (s : String) : Bool :=
  match s.data with
  | [] => false
  | c :: _ => !(c == ';' || c == '@')

/-- FFMPEG_HEADER_START search: the pattern is zero-or-more spaces followed by
the literal phrase, so a match exists iff the line contains the phrase. -/
def ffmpegHeaderStart (s : String) : Bool :=
  strContains s "This file is part of FFmpeg"

/-- Drop a maximal run of leading stars. -/
def dropStars : List Char → List Char
  | [] => []
  | c :: rest => if c = '*' then dropStars rest else c :: rest

theorem dropStars_length_le (l : List Char) : (dropStars l).length ≤ l.length := by
  induction l with
  | nil => simp [dropStars]
  | cons c rest ih =>
    by_cases h : c = '*'
    · simpa [dropStars, h] using Nat.le_succ_of_le ih
    · simp [dropStars, h]

/-- Model of re.sub replacing every occurrence of slash-star-plus (greedy).
Structural recursion on a fuel bounded by the list length (each step consumes
at least one character, so the fuel never runs out). -/
def subStartAux : Nat → List Char → List Char
  | 0, l => l
  | _, [] => []
  | fuel+1, '/' :: '*' :: rest => subStartAux fuel (dropStars rest)
  | fuel+1, c :: rest => c :: subStartAux fuel rest

/-- Model of re.sub replacing every occurrence of star-slash. -/
def subEndAux : List Char → List Char
  | [] => []
  | '*' :: '/' :: rest => subEndAux rest
  | c :: rest => c :: subEndAux rest

def subStart (s : String) : String := ⟨subStartAux s.data.length s.data⟩

def subEnd (s : String) : String := ⟨subEndAux s.data⟩

/-- Model of re.sub with C_COMMENT_BLOCK_MID (anchored: spaces, one star,
spaces): if the line has that prefix, remove it, else leave the line. -/
def subMid (s : String) : String :=
  match s.data.dropWhile (fun c => c == ' ') with
  | '*' :: rest => ⟨rest.dropWhile (fun c => c == ' ')⟩
  | _ => s

/-- Model of re.sub with ASM_COMMENT_PRE (anchored: semicolon plus stars, or
an at-sign): remove the matched prefix if present. -/
def subAsm (s : String) : String :=
  match s.data with
  | ';' :: rest => ⟨dropStars rest⟩
  | '@' :: rest => ⟨rest⟩
  | _ => s

/-- Apply f at position i, leave other elements unchanged (list assignment). -/
def updateAt (i : Nat) (f : String → String) (l : List String) : List String :=
  l.mapIdx (fun j s => if j == i then f s else s)

/-- StripCommentChars from the source: for asm lines strip the line-comment
prefix from every line; otherwise strip the block-open token from the first
line, the block-close token from the last line, then the middle-line comment
marker from every line after the first. -/
def StripCommentChars (comment_lines : List String) (is_asm : Bool) : List String :=
  if is_asm then comment_lines.map subAsm
  else
    let l1 := updateAt 0 subStart comment_lines
    let l2 := updateAt (l1.length - 1) subEnd l1
    l2.mapIdx (fun i s => if 1 ≤ i then subMid s else s)

/-- Line i of the file; reading past end of file yields the empty string,
like readline. -/
def getLine (content : List String) (i : Nat) : String := content.getD i ""

/-- The scanning loop of ExtractFirstCommentBlock: up to fuel further reads,
currently at line i.  Returns (found_comment_start, found_comment_end,
accumulated lines). -/
def extractLoop (startRe endRe : String → Bool) (content : List String) :
    Nat → Nat → Bool → List String → Bool × Bool × List String
  | 0, _, foundStart, acc => (foundStart, false, acc)
  | fuel+1, i, foundStart, acc =>
    let line := getLine content i
    let fs := foundStart || startRe line
    if fs then
      if endRe line then (fs, true, acc ++ [line])
      else extractLoop startRe endRe content fuel (i+1) fs (acc ++ [line])
    else extractLoop startRe endRe content fuel (i+1) fs acc

/-- The body of ExtractFirstCommentBlock once the comment style is fixed:
run the 100-line scanning loop with the style's start and end patterns and,
when both a start and an end were found, strip the comment characters. -/
def extractWith (startRe endRe : String → Bool) (is_asm : Bool)
    (content : List String) : Option (List String) :=
  let r := extractLoop startRe endRe content 100 0 false []
  if r.1 && r.2.1 then some (StripCommentChars r.2.2 is_asm) else none

/-- ExtractFirstCommentBlock from the source.  The file is its list of lines
(each line includes its trailing newline, as produced by readline).  Scans at
most 100 lines; selects asm mode by the .asm extension, or for .S files by
inspecting the first line; the mode picks both the patterns of the loop and
the stripping style, exactly as in the source. -/
def ExtractFirstCommentBlock (file_path : String) (content : List String) :
    Option (List String) :=
  let isAsm0 := strEndsWith file_path ".asm"
  let isAsm :=
    if strEndsWith file_path ".S" && asmCommentPre (getLine content 0) then true
    else isAsm0
  if isAsm then extractWith asmCommentPre asmNotComment true content
  else extractWith cStart cEnd false content

/-- ConcatLines from the source. -/
def ConcatLines (lines : List String) : String := String.join lines

/-- NormalizeCommentLines from the source: find the first line containing the
FFmpeg header phrase; fail if there is none or it is more than 20 lines from
the top; on success keep the lines from the marker onward. -/
def NormalizeCommentLines (comment_lines : List String) : Option (List String) :=
  if comment_lines.findIdx (fun l => ffmpegHeaderStart l) = comment_lines.length
  then none
  else if 20 < comment_lines.findIdx (fun l => ffmpegHeaderStart l) then none
  else some (comment_lines.drop (comment_lines.findIdx (fun l => ffmpegHeaderStart l)))

/-- LICENSE_SEPARATOR from the source: two newlines, eighty stars, two
newlines. -/
def LICENSE_SEPARATOR : String := "\n\n" ++ ⟨List.replicate 80 '*'⟩ ++ "\n\n"

/-- FFMPEG_LGPL_REF from the source, byte for byte (it begins with a newline
and ends with the block-close token without a trailing newline). -/
def FFMPEG_LGPL_REF : String :=
  "\n * This file is part of FFmpeg.\n *\n * FFmpeg is free software; you can redistribute it and/or\n * modify it under the terms of the GNU Lesser General Public\n * License as published by the Free Software Foundation; either\n * version 2.1 of the License, or (at your option) any later version.\n *\n * FFmpeg is distributed in the hope that it will be useful,\n * but WITHOUT ANY WARRANTY; without even the implied warranty of\n * MERCHANTABILITY or FITNESS FOR A PARTICULAR PURPOSE.  See the GNU\n * Lesser General Public License for more details.\n *\n * You should have received a copy of the GNU Lesser General Public\n * License along with FFmpeg; if not, write to the Free Software\n * Foundation, Inc., 51 Franklin Street, Fifth Floor, Boston, MA 02110-1301 USA\n */"

/-- Split a string into its lines, each keeping its trailing newline (the
line list of a file, as successive readline calls produce it). -/
def splitKeepAux : List Char → List Char → List String
  | [], cur => if cur = [] then [] else [⟨cur.reverse⟩]
  | c :: rest, cur =>
    if c = '\n' then ⟨(c :: cur).reverse⟩ :: splitKeepAux rest []
    else splitKeepAux rest (c :: cur)

def splitLinesKeepEnds (s : String) : List String := splitKeepAux s.data []

/-
  Model of difflib.SequenceMatcher(None, a, b).ratio() as used by ProcessFile.
  isjunk is None, so the bjunk set is empty; autojunk is on, so characters
  occurring more than n/100 + 1 times in b (when b has at least 200
  characters) are dropped from the index b2j (they are "popular", which
  excludes them from the dynamic program but not from the match-extension
  loops, exactly as in difflib).  Characters are compared by code point
  (Char.toNat is injective, so the comparisons agree with difflib's); the
  loops below walk pre-sliced segments of the sequences instead of indexing
  anew at every step, which performs the very same character visits as
  difflib's index arithmetic.  The ratio 2*M/T is computed as an exact
  rational; the source computes it in floating point, where both operands of
  the division are exact integers, so the comparisons this program makes
  (equality with 1.0 and 0.0, and the 0.9 threshold at these text sizes)
  agree with the rational values.
-/

/-- The distinct code points of a list in first-occurrence order (the key
order a dict built by successive setdefault calls has). -/
def dedupKeysAux : Nat → List Nat → List Nat
  | 0, _ => []
  | _, [] => []
  | fuel+1, c :: rest => c :: dedupKeysAux fuel (rest.filter (fun d => d != c))

def dedupKeys (l : List Nat) : List Nat := dedupKeysAux l.length l

/-- Ascending list of positions of c in b (the index list a dict built by
successive appends has for key c). -/
def occurrences (b : List Nat) (c : Nat) : List Nat :=
  (b.enum.filter (fun p => p.2 == c)).map Prod.fst

/-- The b2j table before junk handling: for each code point of b, in
first-occurrence order, its ascending list of positions. -/
def b2jRaw (b : List Nat) : List (Nat × List Nat) :=
  (dedupKeys b).map (fun c => (c, occurrences b c))

/-- chain_b with isjunk = None and autojunk = True: drop popular code points
(count strictly above n/100 + 1) from b2j when b has at least 200 elements. -/
def chainB (b : List Nat) : List (Nat × List Nat) :=
  let raw := b2jRaw b
  let n := b.length
  if 200 ≤ n then
    let ntest := n / 100 + 1
    let popular := (raw.filter (fun p => ntest < p.2.length)).map Prod.fst
    raw.filter (fun p => !(popular.contains p.1))
  else raw

/-- b2j.get with default empty list. -/
def b2jGet (m : List (Nat × List Nat)) (c : Nat) : List Nat :=
  ((m.lookup c).getD [])

/-- The index list of code point c that the inner loop of find_longest_match
actually processes at one position: the j of b2j[c] before the first one at
or beyond bhi (break), restricted to those at or beyond blo (continue). -/
def processedJs (b2j : List (Nat × List Nat)) (c : Nat) (blo bhi : Nat) :
    List Nat :=
  ((b2jGet b2j c).takeWhile (fun j => j < bhi)).filter (fun j => blo ≤ j)

/-- The chain value the dynamic program of find_longest_match assigns to a
processed pair (i, j): difflib memoizes this recurrence in the j2len
dictionary (newj2len[j] = j2len.get(j-1, 0) + 1, where j2len holds the
values of the previous position i-1 for exactly the js processed there).
revPre lists a[i-1], a[i-2], ..., a[alo], so its head is the previous
character and emptiness means i = alo. -/
def dpChain (b2j : List (Nat × List Nat)) (blo bhi : Nat) :
    Nat → List Nat → Nat
  | _, [] => 1
  | j, prev :: revRest =>
    if 0 < j && (processedJs b2j prev blo bhi).contains (j - 1) then
      dpChain b2j blo bhi (j - 1) revRest + 1
    else 1

/-- Force a number to a literal before continuing (semantically the
identity; keeps evaluation of the loops below iterative). -/
def nforce (n : Nat) (f : Nat → α) : α :=
  match n with
  | 0 => f 0
  | m+1 => f (m + 1)

/-- Inner loop of find_longest_match over the processed index list of one
position i, updating the best triple (besti, bestj, bestsize). -/
def flmInner (b2j : List (Nat × List Nat)) (blo bhi i : Nat)
    (revPre : List Nat) :
    List Nat → Nat → Nat → Nat → Nat × Nat × Nat
  | [], bi, bj, bs => (bi, bj, bs)
  | j :: js, bi, bj, bs =>
    let k := dpChain b2j blo bhi j revPre
    if bs < k then
      flmInner b2j blo bhi i revPre js (i + 1 - k) (j + 1 - k) k
    else
      flmInner b2j blo bhi i revPre js bi bj bs

/-- Outer dynamic-programming loop of find_longest_match over positions of
a: the first list is a[i:ahi], revPre is the reversed a[alo:i]. -/
def flmOuter (b2j : List (Nat × List Nat)) (blo bhi : Nat) :
    List Nat → Nat → List Nat → Nat → Nat → Nat → Nat × Nat × Nat
  | [], _, _, bi, bj, bs => (bi, bj, bs)
  | ch :: rest, i, revPre, bi, bj, bs =>
    let js := processedJs b2j ch blo bhi
    let r := flmInner b2j blo bhi i revPre js bi bj bs
    nforce r.1 (fun b1 => nforce r.2.1 (fun b2 => nforce r.2.2 (fun b3 =>
      flmOuter b2j blo bhi rest (i + 1) (ch :: revPre) b1 b2 b3)))

/-- Leftward match-extension loop of find_longest_match: extend while the
characters one to the left are equal and the b character junk status equals
wantJunk.  The lists are the reversed a[alo:besti] and b[blo:bestj], so
emptiness of either means the alo or blo bound was reached. -/
def extLeft (wantJunk : Bool) (isj : Nat → Bool) :
    List Nat → List Nat → Nat → Nat → Nat → Nat × Nat × Nat
  | xa :: ras, yb :: rbs, besti, bestj, bestsize =>
    if (isj yb == wantJunk) && (xa == yb) then
      extLeft wantJunk isj ras rbs (besti - 1) (bestj - 1) (bestsize + 1)
    else (besti, bestj, bestsize)
  | _, _, besti, bestj, bestsize => (besti, bestj, bestsize)

/-- Rightward match-extension loop of find_longest_match: the lists are
a[besti+bestsize:] and b[bestj+bestsize:], and the two counters are the
distances ahi - (besti+bestsize) and bhi - (bestj+bestsize), so a zero
counter means the ahi or bhi bound was reached. -/
def extRight (wantJunk : Bool) (isj : Nat → Bool) :
    List Nat → List Nat → Nat → Nat → Nat → Nat
  | xa :: sas, yb :: sbs, ra+1, rb+1, bestsize =>
    if (isj yb == wantJunk) && (xa == yb) then
      extRight wantJunk isj sas sbs ra rb (bestsize + 1)
    else bestsize
  | _, _, _, _, bestsize => bestsize

/-- find_longest_match on the window a[alo:ahi] x b[blo:bhi]: the dynamic
program over b2j, then the four extension loops (non-junk left, non-junk
right, junk left, junk right). -/
def findLongestMatch (a b : List Nat) (b2j : List (Nat × List Nat))
    (isj : Nat → Bool) (alo ahi blo bhi : Nat) : Nat × Nat × Nat :=
  let best := flmOuter b2j blo bhi ((a.drop alo).take (ahi - alo)) alo []
    alo blo 0
  let p1 := extLeft false isj ((a.take best.1).drop alo).reverse
    ((b.take best.2.1).drop blo).reverse best.1 best.2.1 best.2.2
  let s1 := extRight false isj (a.drop (p1.1 + p1.2.2))
    (b.drop (p1.2.1 + p1.2.2)) (ahi - (p1.1 + p1.2.2))
    (bhi - (p1.2.1 + p1.2.2)) p1.2.2
  let p2 := extLeft true isj ((a.take p1.1).drop alo).reverse
    ((b.take p1.2.1).drop blo).reverse p1.1 p1.2.1 s1
  let s2 := extRight true isj (a.drop (p2.1 + p2.2.2))
    (b.drop (p2.2.1 + p2.2.2)) (ahi - (p2.1 + p2.2.2))
    (bhi - (p2.2.1 + p2.2.2)) p2.2.2
  (p2.1, p2.2.1, s2)

/-- Total size of the matching blocks produced by get_matching_blocks on a
window (the queue recursion; the later merging of adjacent blocks and the
trailing zero-size sentinel do not change the total size, which is all that
ratio() uses).  fuel bounds the recursion depth; each recursive window is
strictly smaller, so la + lb + 1 is always enough. -/
def matchingSizes (a b : List Nat) (b2j : List (Nat × List Nat))
    (isj : Nat → Bool) : Nat → Nat → Nat → Nat → Nat → Nat
  | 0, _, _, _, _ => 0
  | fuel+1, alo, ahi, blo, bhi =>
    let m := findLongestMatch a b b2j isj alo ahi blo bhi
    let i := m.1
    let j := m.2.1
    let k := m.2.2
    if k = 0 then 0
    else
      k + (if alo < i && blo < j then
             matchingSizes a b b2j isj fuel alo i blo j else 0)
        + (if i + k < ahi && j + k < bhi then
             matchingSizes a b b2j isj fuel (i + k) ahi (j + k) bhi else 0)

/-- ratio() of SequenceMatcher(None, sa, sb), as an exact rational: twice
the matched size divided by the total length (and 1 for two empty
sequences, as in _calculate_ratio). -/
def ratioQ (sa sb : String) : ℚ :=
  let a := sa.data.map Char.toNat
  let b := sb.data.map Char.toNat
  let la := a.length
  let lb := b.length
  let m := matchingSizes a b (chainB b) (fun _ => false) (la + lb + 1) 0 la 0 lb
  if la + lb = 0 then 1 else mkRat (2 * m) (la + lb)

/-
  Model of hashlib.md5(...).hexdigest() over the UTF-8 encoding of a string
  (RFC 1321, little-endian, lowercase hex), used by HandleNonLGPLFile to
  detect drift of bucketed license headers.  Machine words are Nat values
  reduced modulo 2^32 at each step.
-/

def utf8EncodeCharNat (c : Char) : List Nat :=
  let n := c.toNat
  if n < 128 then [n]
  else if n < 2048 then [192 + n / 64, 128 + n % 64]
  else if n < 65536 then [224 + n / 4096, 128 + (n / 64) % 64, 128 + n % 64]
  else [240 + n / 262144, 128 + (n / 4096) % 64, 128 + (n / 64) % 64,
    128 + n % 64]

def utf8Bytes (s : String) : List Nat := s.data.bind utf8EncodeCharNat

/-- Rotate a 32-bit word left by n bits (the two summands occupy disjoint
bit ranges). -/
def rotl32 (x n : Nat) : Nat :=
  (x * 2 ^ n) % 4294967296 + x / 2 ^ (32 - n)

/-- Bitwise complement within 32 bits (arguments are below 2^32). -/
def mnot (b : Nat) : Nat := 4294967295 - b

def md5F (b c d : Nat) : Nat := (b &&& c) ||| (mnot b &&& d)

def md5G (b c d : Nat) : Nat := (d &&& b) ||| (mnot d &&& c)

def md5H (b c d : Nat) : Nat := b ^^^ c ^^^ d

def md5I (b c d : Nat) : Nat := c ^^^ (b ||| mnot d)

/-- The sixty-four round constants of RFC 1321. -/
def md5K : List Nat :=
  [0xd76aa478, 0xe8c7b756, 0x242070db, 0xc1bdceee,
   0xf57c0faf, 0x4787c62a, 0xa8304613, 0xfd469501,
   0x698098d8, 0x8b44f7af, 0xffff5bb1, 0x895cd7be,
   0x6b901122, 0xfd987193, 0xa679438e, 0x49b40821,
   0xf61e2562, 0xc040b340, 0x265e5a51, 0xe9b6c7aa,
   0xd62f105d, 0x02441453, 0xd8a1e681, 0xe7d3fbc8,
   0x21e1cde6, 0xc33707d6, 0xf4d50d87, 0x455a14ed,
   0xa9e3e905, 0xfcefa3f8, 0x676f02d9, 0x8d2a4c8a,
   0xfffa3942, 0x8771f681, 0x6d9d6122, 0xfde5380c,
   0xa4beea44, 0x4bdecfa9, 0xf6bb4b60, 0xbebfbc70,
   0x289b7ec6, 0xeaa127fa, 0xd4ef3085, 0x04881d05,
   0xd9d4d039, 0xe6db99e5, 0x1fa27cf8, 0xc4ac5665,
   0xf4292244, 0x432aff97, 0xab9423a7, 0xfc93a039,
   0x655b59c3, 0x8f0ccc92, 0xffeff47d, 0x85845dd1,
   0x6fa87e4f, 0xfe2ce6e0, 0xa3014314, 0x4e0811a1,
   0xf7537e82, 0xbd3af235, 0x2ad7d2bb, 0xeb86d391]

/-- The per-round left-rotation amounts of RFC 1321. -/
def md5S : List Nat :=
  [7, 12, 17, 22, 7, 12, 17, 22, 7, 12, 17, 22, 7, 12, 17, 22,
   5, 9, 14, 20, 5, 9, 14, 20, 5, 9, 14, 20, 5, 9, 14, 20,
   4, 11, 16, 23, 4, 11, 16, 23, 4, 11, 16, 23, 4, 11, 16, 23,
   6, 10, 15, 21, 6, 10, 15, 21, 6, 10, 15, 21, 6, 10, 15, 21]

def md5Round (mWords : List Nat) (st : Nat × Nat × Nat × Nat) (i : Nat) :
    Nat × Nat × Nat × Nat :=
  let a := st.1
  let b := st.2.1
  let c := st.2.2.1
  let d := st.2.2.2
  let f :=
    if i < 16 then md5F b c d
    else if i < 32 then md5G b c d
    else if i < 48 then md5H b c d
    else md5I b c d
  let g :=
    if i < 16 then i
    else if i < 32 then (5 * i + 1) % 16
    else if i < 48 then (3 * i + 5) % 16
    else (7 * i) % 16
  let tmp := (a + f + md5K.getD i 0 + mWords.getD g 0) % 4294967296
  let nb := (b + rotl32 tmp (md5S.getD i 0)) % 4294967296
  (d, nb, b, c)

def md5Chunk (h : Nat × Nat × Nat × Nat) (mWords : List Nat) :
    Nat × Nat × Nat × Nat :=
  let st := (List.range 64).foldl (md5Round mWords) h
  ((h.1 + st.1) % 4294967296, (h.2.1 + st.2.1) % 4294967296,
   (h.2.2.1 + st.2.2.1) % 4294967296, (h.2.2.2 + st.2.2.2) % 4294967296)

/-- One little-endian 32-bit word read at byte offset ofs. -/
def leWord (bytes : List Nat) (ofs : Nat) : Nat :=
  bytes.getD ofs 0 + 256 * bytes.getD (ofs + 1) 0
    + 65536 * bytes.getD (ofs + 2) 0 + 16777216 * bytes.getD (ofs + 3) 0

def chunkWords (bytes : List Nat) (chunkIdx : Nat) : List Nat :=
  (List.range 16).map (fun w => leWord bytes (64 * chunkIdx + 4 * w))

/-- RFC 1321 padding: a 0x80 byte, zeros to 56 mod 64, then the bit length
as a little-endian 64-bit number. -/
def md5Pad (msg : List Nat) : List Nat :=
  let len := msg.length
  let k := (64 + 56 - (len + 1) % 64) % 64
  msg ++ [128] ++ List.replicate k 0
    ++ (List.range 8).map (fun i => (len * 8) / 2 ^ (8 * i) % 256)

def md5Nat (msg : List Nat) : Nat × Nat × Nat × Nat :=
  let padded := md5Pad msg
  let nChunks := padded.length / 64
  (List.range nChunks).foldl (fun h ci => md5Chunk h (chunkWords padded ci))
    (0x67452301, 0xefcdab89, 0x98badcfe, 0x10325476)

def hexDigitChar (n : Nat) : Char :=
  if n < 10 then Char.ofNat (48 + n) else Char.ofNat (87 + n)

def byteHex (b : Nat) : List Char := [hexDigitChar (b / 16), hexDigitChar (b % 16)]

def wordLEBytes (w : Nat) : List Nat :=
  [w % 256, w / 256 % 256, w / 65536 % 256, w / 16777216 % 256]

/-- Lowercase hex digest of the md5 of a byte list. -/
def md5HexDigest (msg : List Nat) : String :=
  let h := md5Nat msg
  ⟨((wordLEBytes h.1 ++ wordLEBytes h.2.1 ++ wordLEBytes h.2.2.1
      ++ wordLEBytes h.2.2.2).map byteHex).join⟩

/-- hashlib.md5(s.encode(utf-8)).hexdigest() for a string s. -/
def md5HexOfString (s : String) : String := md5HexDigest (utf8Bytes s)

/-
  Models of the posix os.path functions the tool uses: isabs, join (two
  arguments), normpath, abspath (with the process working directory passed
  explicitly) and relpath.
-/

/-- os.path.isabs: the path starts with a slash. -/
def isAbs (p : String) : Bool :=
  match p.data with
  | [] => false
  | c :: _ => c == '/'

/-- Split on slashes (like str.split, empty pieces kept). -/
def partsAux : List Char → List Char → List (List Char)
  | [], cur => [cur.reverse]
  | c :: rest, cur =>
    if c = '/' then cur.reverse :: partsAux rest [] else partsAux rest (c :: cur)

def splitSlash (s : String) : List String :=
  (partsAux s.data []).map (fun l => ⟨l⟩)

/-- The non-empty components of a path. -/
def pathParts (s : String) : List String :=
  (splitSlash s).filter (fun c => c ≠ "")

/-- Join components with single slashes (like a slash join). -/
def joinParts : List String → String
  | [] => ""
  | [x] => x
  | x :: xs => x ++ "/" ++ joinParts xs

/-- The leading-slash count normpath preserves: exactly two slashes are kept
as two (a posix special case), any other positive number as one. -/
def initialSlashCount (p : String) : Nat :=
  if p.data.take 1 ≠ ['/'] then 0
  else if p.data.take 3 = ['/', '/', '/'] then 1
  else if p.data.take 2 = ['/', '/'] then 2
  else 1

/-- The component normalization loop of posixpath.normpath: drop empty and
dot components, resolve dot-dot components textually. -/
def normpathComps (p : String) : List String :=
  (splitSlash p).foldl (fun acc comp =>
    if comp = "" ∨ comp = "." then acc
    else if comp ≠ ".." ∨ (initialSlashCount p = 0 ∧ acc = [])
        ∨ (acc ≠ [] ∧ acc.getLast? = some "..") then acc ++ [comp]
    else if acc ≠ [] then acc.dropLast
    else acc) []

/-- posixpath.normpath: the kept initial slashes followed by the normalized
components, with a dot for an empty input or an empty result. -/
def normpath (p : String) : String :=
  if p = "" then "." else
  if ((⟨List.replicate (initialSlashCount p) '/'⟩ : String)
      ++ joinParts (normpathComps p)) = "" then "."
  else (⟨List.replicate (initialSlashCount p) '/'⟩ : String)
    ++ joinParts (normpathComps p)

/-- posixpath.join for two arguments. -/
def joinPath (a b : String) : String :=
  if isAbs b then b
  else if a = "" ∨ strEndsWith a "/" then a ++ b
  else a ++ "/" ++ b

/-- os.path.abspath with the working directory passed explicitly. -/
def abspath (cwd p : String) : String :=
  normpath (if isAbs p then p else joinPath cwd p)

def commonPrefixLen : List String → List String → Nat
  | x :: xs, y :: ys => if x = y then commonPrefixLen xs ys + 1 else 0
  | _, _ => 0

/-- The component list posixpath.relpath builds: dot-dot for each start
component past the common prefix of the absolute forms, then the remaining
path components. -/
def relpathList (cwd p start : String) : List String :=
  List.replicate ((pathParts (abspath cwd start)).length
      - commonPrefixLen (pathParts (abspath cwd start)) (pathParts (abspath cwd p)))
    ".."
  ++ (pathParts (abspath cwd p)).drop
      (commonPrefixLen (pathParts (abspath cwd start)) (pathParts (abspath cwd p)))

/-- posixpath.relpath(p, start): compare the component lists of the absolute
forms, go up for the remaining start components, then down the remaining
path components. -/
def relpath (cwd p start : String) : String :=
  if relpathList cwd p start = [] then "."
  else joinParts (relpathList cwd p start)

/-
  The data model: the License namedtuple (whose fields are the license name
  strings themselves), FileInfo, the KNOWN_FILE_BUCKETS table, and the
  CreditsUpdater state (the three accumulation collections).  Python dicts
  are association lists: an append to a defaultdict(list) entry extends the
  entry in place or adds a new entry at the end; a plain assignment replaces
  the value in place or adds a new entry at the end.
-/

def UPSTREAM_LICENSEMD : String := "LICENSE.md"

def DEFAULT_OUTPUT_FILE : String := "CREDITS.chromium"

/-- LGPL_MATCH_THRESHOLD, as an exact rational. -/
def LGPL_MATCH_THRESHOLD : ℚ := mkRat 9 10

namespace License

def LGPL : String := "LGPL"

def MIPS : String := "MIPS"

def JPEG : String := "JPEG"

def OGG_MA_MR_2005 : String := "OGG_MA_MR_2005"

end License

structure FileInfo where
  license : String
  license_digest : String
deriving DecidableEq

/-- KNOWN_FILE_BUCKETS from the source: relative path, license bucket,
recorded md5 digest of the comment header. -/
def KNOWN_FILE_BUCKETS : List (String × String × String) :=
  [("libavcodec/codec_desc.c", License.LGPL, "091f9c6d1efc62038e516f5c67263962"),
   ("libavcodec/mdct_fixed_32.c", License.MIPS, "179c17c9dab77f95dc6540709b5fb8cd"),
   ("libavcodec/fft_fixed_32.c", License.MIPS, "179c17c9dab77f95dc6540709b5fb8cd"),
   ("libavcodec/fft_init_table.c", License.MIPS, "179c17c9dab77f95dc6540709b5fb8cd"),
   ("libavcodec/mips/aacdec_mips.c", License.MIPS, "a08afe43d908fe6625603d0cbc95da46"),
   ("libavcodec/mips/sbrdsp_mips.c", License.MIPS, "c34ece06ebe27e5a7611ef362962b048"),
   ("libavcodec/mips/aacpsdsp_mips.c", License.MIPS, "a08afe43d908fe6625603d0cbc95da46"),
   ("libavutil/mips/float_dsp_mips.c", License.MIPS, "fb9f51968ec8289768547144b920cf79"),
   ("libavcodec/mips/aacsbr_mips.c", License.MIPS, "82c53533b2576fe5d2c04880a46595f2"),
   ("libavutil/fixed_dsp.c", License.MIPS, "7a521412ac91287b3e1026885f6bd56f"),
   ("libavcodec/mips/aacdec_mips.h", License.MIPS, "c34ece06ebe27e5a7611ef362962b048"),
   ("libavcodec/mips/lsp_mips.h", License.MIPS, "eef419f576f738e66ca3bfc975a37996"),
   ("libavcodec/mips/aacsbr_mips.h", License.MIPS, "82c53533b2576fe5d2c04880a46595f2"),
   ("libavutil/mips/libm_mips.h", License.MIPS, "4b408982f2aa83fac9c020c61853bdae"),
   ("libavcodec/mips/amrwbdec_mips.h", License.MIPS, "4b408982f2aa83fac9c020c61853bdae"),
   ("libavcodec/fft_table.h", License.MIPS, "179c17c9dab77f95dc6540709b5fb8cd"),
   ("libavcodec/mips/compute_antialias_float.h", License.MIPS, "a7ff7e3157e3726cba79e022628d3b93"),
   ("libavcodec/mips/compute_antialias_fixed.h", License.MIPS, "97e366b4c71ad5ceca991d89044c414d"),
   ("libavutil/softfloat_tables.h", License.MIPS, "de3e5c962caa5c8249bef3085ef36bc8"),
   ("libavutil/fixed_dsp.h", License.MIPS, "4b408982f2aa83fac9c020c61853bdae"),
   ("libavcodec/jfdctint_template.c", License.JPEG, "d80cfd2e439eb700aed0f5bc44fef9b5"),
   ("libavcodec/jfdctfst.c", License.JPEG, "7dcfa68ad9c8fd940fb404ee3242e03f"),
   ("libavcodec/jrevdct.c", License.JPEG, "a9b8f5dcb74fa76a72069306b841b042"),
   ("libavformat/oggparseogm.c", License.OGG_MA_MR_2005, "ee65196bafec5d8e871e64bb739bdc79"),
   ("libavformat/oggdec.c", License.OGG_MA_MR_2005, "43ed5da1268cb2f104095c79410fd394"),
   ("libavformat/oggdec.h", License.OGG_MA_MR_2005, "ee65196bafec5d8e871e64bb739bdc79"),
   ("libavformat/oggparsevorbis.c", License.OGG_MA_MR_2005, "6c432580b4486564e43cd538370e3dbc")]

/-- The known_file_map the constructor builds from KNOWN_FILE_BUCKETS
(os.path.join of a single component is that component). -/
def known_file_map : List (String × FileInfo) :=
  KNOWN_FILE_BUCKETS.map (fun item => (item.1, FileInfo.mk item.2.1 item.2.2))

structure CreditsUpdater where
  source_dir : String
  output_file : String
  difficult_files : List String
  known_credits : List (String × List String)
  generated_credits : List (String × String)
deriving DecidableEq

instance {ε α : Type} [DecidableEq ε] [DecidableEq α] :
    DecidableEq (Except ε α) := fun a b =>
  match a, b with
  | .error e, .error f =>
    if h : e = f then isTrue (by rw [h]) else isFalse (by
      intro hc; injection hc; contradiction)
  | .error _, .ok _ => isFalse (by intro hc; exact Except.noConfusion hc)
  | .ok _, .error _ => isFalse (by intro hc; exact Except.noConfusion hc)
  | .ok x, .ok y =>
    if h : x = y then isTrue (by rw [h]) else isFalse (by
      intro hc; injection hc; contradiction)

/-- A fresh CreditsUpdater, as the constructor builds it. -/
def CreditsUpdater.init (source_dir : String)
    (output_file : String := DEFAULT_OUTPUT_FILE) : CreditsUpdater :=
  { source_dir := source_dir, output_file := output_file,
    difficult_files := [], known_credits := [], generated_credits := [] }

/-- Append v to the list stored at key k, creating the entry at the end when
missing (defaultdict(list) append). -/
def dictAppend (m : List (String × List String)) (k v : String) :
    List (String × List String) :=
  if m.any (fun p => p.1 == k) then
    m.map (fun p => if p.1 == k then (p.1, p.2 ++ [v]) else p)
  else m ++ [(k, [v])]

/-- Assign v at key k, replacing in place or adding a new entry at the end
(dict assignment). -/
def assocSet (m : List (String × String)) (k v : String) :
    List (String × String) :=
  if m.any (fun p => p.1 == k) then
    m.map (fun p => if p.1 == k then (p.1, v) else p)
  else m ++ [(k, v)]

/-- The characters str.strip removes (the ASCII whitespace characters; the
texts this tool handles are ASCII). -/
def isPySpace (c : Char) : Bool :=
  c == ' ' || c == '\t' || c == '\n' || c == '\r' || c == '\x0b' || c == '\x0c'

/-- str.strip: drop leading and trailing whitespace. -/
def pyStrip (s : String) : String :=
  ⟨((s.data.dropWhile isPySpace).reverse.dropWhile isPySpace).reverse⟩

/-- The exit message of the digest-mismatch branch of HandleNonLGPLFile,
with the path and both digests interpolated as in the source. -/
def digestMismatchMessage (rel old new : String) : String :=
  "File " ++ rel ++ " header has changed (was: " ++ old ++ " now: " ++ new
    ++ "). Inspect the header and update the exceptions table to continue generating credits."

/-- HandleNonLGPLFile from the source.  The error case models the exit call
(the run halts; nothing is recorded). -/
def HandleNonLGPLFile (self : CreditsUpdater) (cwd : String)
    (comment_lines : List String) (file_path : String) :
    Except String CreditsUpdater :=
  match known_file_map.lookup
      (relpath cwd file_path (abspath cwd self.source_dir)) with
  | some file_license_info =>
    if md5HexOfString (ConcatLines comment_lines)
        ≠ file_license_info.license_digest then
      .error (digestMismatchMessage
        (relpath cwd file_path (abspath cwd self.source_dir))
        file_license_info.license_digest
        (md5HexOfString (ConcatLines comment_lines)))
    else
      .ok { self with
            known_credits := dictAppend self.known_credits
              file_license_info.license
              (relpath cwd file_path (abspath cwd self.source_dir)) }
  | none =>
    .ok { self with
          generated_credits := assocSet self.generated_credits
            (relpath cwd file_path (abspath cwd self.source_dir))
            (pyStrip (ConcatLines comment_lines)) }

/-- The path ProcessFile works with: the argument itself when absolute,
otherwise the absolute form of its join with source_dir. -/
def resolvedPath (self : CreditsUpdater) (cwd file_path0 : String) : String :=
  if isAbs file_path0 then file_path0
  else abspath cwd (joinPath self.source_dir file_path0)

/-- ProcessFile from the source.  The file content is passed explicitly as
its line list; cwd is the process working directory os.path.abspath uses. -/
def ProcessFile (self : CreditsUpdater) (cwd : String) (file_path0 : String)
    (content : List String) : Except String CreditsUpdater :=
  match ExtractFirstCommentBlock (resolvedPath self cwd file_path0) content with
  | none => .ok { self with
      difficult_files := self.difficult_files ++ [resolvedPath self cwd file_path0] }
  | some comment_lines =>
    if comment_lines.isEmpty then
      .ok { self with
        difficult_files := self.difficult_files ++ [resolvedPath self cwd file_path0] }
    else
      match NormalizeCommentLines comment_lines with
      | some normalized_lines =>
        if normalized_lines.isEmpty then
          HandleNonLGPLFile self cwd comment_lines (resolvedPath self cwd file_path0)
        else
          if LGPL_MATCH_THRESHOLD
              ≤ ratioQ (ConcatLines normalized_lines) FFMPEG_LGPL_REF then
            .ok { self with
                  known_credits := dictAppend self.known_credits
                    License.LGPL (resolvedPath self cwd file_path0) }
          else HandleNonLGPLFile self cwd comment_lines (resolvedPath self cwd file_path0)
      | none => HandleNonLGPLFile self cwd comment_lines (resolvedPath self cwd file_path0)

/-- Concatenation of a list of strings (the effect of writing them in
order). -/
def concatAll : List String → String
  | [] => ""
  | x :: xs => x ++ concatAll xs

/-- Python sorted for strings (code-point lexicographic order; stability is
immaterial because the sorted keys are distinct). -/
def sortStrings (l : List String) : List String :=
  List.insertionSort (fun a b => a ≤ b) l

/-- Python sorted with key fst for dict items. -/
def sortPairsByKey (l : List (String × String)) : List (String × String) :=
  List.insertionSort (fun x y => x.1 ≤ y.1) l

/-- WriteCredits from the source, with the external texts passed explicitly:
license_md is the content of LICENSE.md and license_texts the content of the
per-bucket license files.  If any file was recorded difficult the run halts
after listing every such path (the error value); otherwise the result is the
rendered document: the overview, the verbatim entries sorted by path, the
non-LGPL bucket sections in sorted key order (the LGPL key is skipped by the
loop), and the full LGPL text last. -/
def WriteCredits (self : CreditsUpdater) (license_md : String)
    (license_texts : String → String) : Except (List String) String :=
  if self.difficult_files ≠ [] then .error self.difficult_files
  else
    .ok (license_md
      ++ concatAll ((sortPairsByKey self.generated_credits).map
          (fun fl => LICENSE_SEPARATOR ++ fl.1 ++ "\n\n" ++ fl.2))
      ++ concatAll ((sortStrings (self.known_credits.map Prod.fst)).map
          (fun known_license =>
            if known_license = License.LGPL then ""
            else
              LICENSE_SEPARATOR
                ++ String.intercalate "\n"
                    (sortStrings ((self.known_credits.lookup known_license).getD []))
                ++ "\n\n" ++ license_texts known_license))
      ++ LICENSE_SEPARATOR ++ license_texts License.LGPL)

/-
  Theorems.  Each claim of the specification is settled below; helper lemmas
  come first.
-/

theorem normalize_none_or_some (cl : List String) :
    NormalizeCommentLines cl = none ∨
    NormalizeCommentLines cl =
      some (cl.drop (cl.findIdx (fun l => ffmpegHeaderStart l))) := by
  unfold NormalizeCommentLines
  split
  · exact Or.inl rfl
  · split
    · exact Or.inl rfl
    · exact Or.inr rfl

theorem normalize_some_ne_nil (cl nl : List String)
    (h : NormalizeCommentLines cl = some nl) : nl ≠ [] := by
  unfold NormalizeCommentLines at h
  split at h
  · exact absurd h (by simp)
  · split at h
    · exact absurd h (by simp)
    · rename_i h1 h2
      have hlt : cl.findIdx (fun l => ffmpegHeaderStart l) < cl.length :=
        Nat.lt_of_le_of_ne (List.findIdx_le_length (fun l => ffmpegHeaderStart l)) h1
      have : nl = cl.drop (cl.findIdx (fun l => ffmpegHeaderStart l)) :=
        (Option.some.injEq _ _ ▸ h).symm
      subst this
      intro hnil
      rw [List.drop_eq_nil_iff] at hnil
      omega

/-- C6.  The normalizer succeeds exactly when the first line matching the
marker phrase is at index at most 20 (and a marker line exists), returning
the suffix from that line on; a marker at offset 20 succeeds and one at
offset 21 fails. -/
theorem claim_C6_normalizer_marker_window (comment_lines : List String) :
    (comment_lines.findIdx (fun l => ffmpegHeaderStart l) < comment_lines.length →
      comment_lines.findIdx (fun l => ffmpegHeaderStart l) ≤ 20 →
      NormalizeCommentLines comment_lines =
        some (comment_lines.drop
          (comment_lines.findIdx (fun l => ffmpegHeaderStart l))))
    ∧ (comment_lines.findIdx (fun l => ffmpegHeaderStart l) = comment_lines.length →
      NormalizeCommentLines comment_lines = none)
    ∧ (20 < comment_lines.findIdx (fun l => ffmpegHeaderStart l) →
      NormalizeCommentLines comment_lines = none)
    ∧ NormalizeCommentLines
        (List.replicate 20 "x\n" ++ ["This file is part of FFmpeg\n"])
      = some ["This file is part of FFmpeg\n"]
    ∧ NormalizeCommentLines
        (List.replicate 21 "x\n" ++ ["This file is part of FFmpeg\n"])
      = none := by
  refine ⟨?_, ?_, ?_, by decide, by decide⟩
  · intro h1 h2
    unfold NormalizeCommentLines
    rw [if_neg (by omega), if_neg (by omega)]
  · intro h
    unfold NormalizeCommentLines
    rw [if_pos h]
  · intro h
    unfold NormalizeCommentLines
    by_cases he :
      comment_lines.findIdx (fun l => ffmpegHeaderStart l) = comment_lines.length
    · rw [if_pos he]
    · rw [if_neg he, if_pos h]

theorem claim_C6_witness :
    NormalizeCommentLines
        (List.replicate 3 "c\n" ++ ["a This file is part of FFmpeg.\n", "t\n"])
      = some ["a This file is part of FFmpeg.\n", "t\n"] :=
  (claim_C6_normalizer_marker_window
    (List.replicate 3 "c\n" ++ ["a This file is part of FFmpeg.\n", "t\n"])).1
    (by decide) (by decide)

/-- C7.  Rendering halts, listing every unparseable path, exactly when some
file was recorded unparseable; otherwise it produces the document. -/
theorem claim_C7_render_halts_on_unparseable (self : CreditsUpdater)
    (license_md : String) (license_texts : String → String) :
    (self.difficult_files ≠ [] →
      WriteCredits self license_md license_texts = .error self.difficult_files)
    ∧ (self.difficult_files = [] →
      ∃ doc, WriteCredits self license_md license_texts = .ok doc) := by
  constructor
  · intro h
    unfold WriteCredits
    rw [if_pos h]
  · intro h
    simp only [WriteCredits, h]
    exact ⟨_, rfl⟩

theorem claim_C7_witness :
    WriteCredits
        { CreditsUpdater.init "/src" with difficult_files := ["/src/bad.c"] }
        "O" (fun _ => "") = .error ["/src/bad.c"] :=
  (claim_C7_render_halts_on_unparseable
    { CreditsUpdater.init "/src" with difficult_files := ["/src/bad.c"] }
    "O" (fun _ => "")).1 (by decide)

/-- C3, counterexample.  For the file x.c with comment block slash-star hi
star-slash, the extracted raw comment lines are the single line
space-hi-space-newline, but the recorded verbatim credit is the stripped
string hi, which differs from the concatenation of the raw extracted lines:
the strip call in HandleNonLGPLFile removes the surrounding whitespace, so
the recorded text is not exactly equal to the raw concatenation. -/
theorem claim_C3_counterexample :
    ExtractFirstCommentBlock "/src/x.c" ["/* hi */\n"] = some [" hi \n"]
    ∧ ProcessFile (CreditsUpdater.init "/src") "/" "x.c" ["/* hi */\n"]
      = .ok { CreditsUpdater.init "/src" with
              generated_credits := [("x.c", "hi")] }
    ∧ ("hi" : String) ≠ ConcatLines [" hi \n"] :=
  ⟨by decide, by decide, by decide⟩

/-- C3, amended.  A file absent from the bucket table is recorded verbatim
under its relative path with text equal to the concatenation of its raw
extracted comment lines stripped of leading and trailing whitespace. -/
theorem claim_C3_amended_verbatim_is_stripped_concat (self : CreditsUpdater)
    (cwd : String) (comment_lines : List String) (file_path : String)
    (hlook : known_file_map.lookup
      (relpath cwd file_path (abspath cwd self.source_dir)) = none) :
    HandleNonLGPLFile self cwd comment_lines file_path =
      .ok { self with
            generated_credits := assocSet self.generated_credits
              (relpath cwd file_path (abspath cwd self.source_dir))
              (pyStrip (ConcatLines comment_lines)) } := by
  unfold HandleNonLGPLFile
  rw [hlook]

theorem claim_C3_witness :
    HandleNonLGPLFile (CreditsUpdater.init "/src") "/" [" hi \n"] "/src/x.c" =
      .ok { CreditsUpdater.init "/src" with
            generated_credits := assocSet [] "x.c" (pyStrip (ConcatLines [" hi \n"])) } := by
  have h := claim_C3_amended_verbatim_is_stripped_concat
    (CreditsUpdater.init "/src") "/" [" hi \n"] "/src/x.c" (by decide)
  exact h.trans (by decide)

/-- C2.  For a file whose relative path is in the bucket table: a digest
mismatch halts the run with a message naming the path and both digests (and
records nothing — the error carries no state); matching digests record the
file under the table bucket.  The message containment conjuncts state that
the diagnostic names the path, the recorded digest and the computed
digest. -/
theorem claim_C2_digest_mismatch_halts (self : CreditsUpdater) (cwd : String)
    (comment_lines : List String) (file_path : String) (fi : FileInfo)
    (hlook : known_file_map.lookup
      (relpath cwd file_path (abspath cwd self.source_dir)) = some fi) :
    (md5HexOfString (ConcatLines comment_lines) ≠ fi.license_digest →
      HandleNonLGPLFile self cwd comment_lines file_path =
        .error (digestMismatchMessage
          (relpath cwd file_path (abspath cwd self.source_dir))
          fi.license_digest (md5HexOfString (ConcatLines comment_lines))))
    ∧ (md5HexOfString (ConcatLines comment_lines) = fi.license_digest →
      HandleNonLGPLFile self cwd comment_lines file_path =
        .ok { self with
              known_credits := dictAppend self.known_credits fi.license
                (relpath cwd file_path (abspath cwd self.source_dir)) })
    ∧ (∀ rel old new, strContains (digestMismatchMessage rel old new) rel = true
        ∧ strContains (digestMismatchMessage rel old new) old = true
        ∧ strContains (digestMismatchMessage rel old new) new = true) := by
  refine ⟨?_, ?_, ?_⟩
  · intro hne
    simp only [HandleNonLGPLFile, hlook]
    rw [if_pos hne]
  · intro heq
    simp only [HandleNonLGPLFile, hlook]
    rw [if_neg (by simp [heq])]
  · intro rel old new
    refine ⟨?_, ?_, ?_⟩
    · unfold strContains digestMismatchMessage
      simp only [decide_eq_true_eq]
      exact ⟨"File ".data,
        (" header has changed (was: " ++ old ++ " now: " ++ new
          ++ "). Inspect the header and update the exceptions table to continue generating credits.").data,
        by simp [String.data_append, List.append_assoc]⟩
    · unfold strContains digestMismatchMessage
      simp only [decide_eq_true_eq]
      exact ⟨("File " ++ rel ++ " header has changed (was: ").data,
        (" now: " ++ new
          ++ "). Inspect the header and update the exceptions table to continue generating credits.").data,
        by simp [String.data_append, List.append_assoc]⟩
    · unfold strContains digestMismatchMessage
      simp only [decide_eq_true_eq]
      exact ⟨("File " ++ rel ++ " header has changed (was: " ++ old
          ++ " now: ").data,
        ("). Inspect the header and update the exceptions table to continue generating credits.").data,
        by simp [String.data_append, List.append_assoc]⟩

set_option maxRecDepth 200000 in
theorem claim_C2_witness :
    HandleNonLGPLFile (CreditsUpdater.init "/ffmpeg") "/" [" x \n"]
        "/ffmpeg/libavcodec/codec_desc.c"
      = .error (digestMismatchMessage "libavcodec/codec_desc.c"
          "091f9c6d1efc62038e516f5c67263962"
          "355ea7cc5aa0815370e644bf689e04b3") := by
  have h := claim_C2_digest_mismatch_halts (CreditsUpdater.init "/ffmpeg") "/"
    [" x \n"] "/ffmpeg/libavcodec/codec_desc.c"
    ⟨License.LGPL, "091f9c6d1efc62038e516f5c67263962"⟩ (by decide)
  exact (h.1 (by decide)).trans (by decide)

/-
  Claim C9: exactly one classification result per ProcessFile call (except
  the digest-mismatch halt).  The three Recorded predicates say that the new
  state extends the old one by exactly one kind of record, the other two
  collections unchanged.
-/

def RecordedDifficult (st st2 : CreditsUpdater) : Prop :=
  (∃ p, st2.difficult_files = st.difficult_files ++ [p])
  ∧ st2.known_credits = st.known_credits
  ∧ st2.generated_credits = st.generated_credits

def RecordedBucketed (st st2 : CreditsUpdater) : Prop :=
  st2.difficult_files = st.difficult_files
  ∧ (∃ lic f, st2.known_credits = dictAppend st.known_credits lic f)
  ∧ st2.generated_credits = st.generated_credits

def RecordedVerbatim (st st2 : CreditsUpdater) : Prop :=
  st2.difficult_files = st.difficult_files
  ∧ st2.known_credits = st.known_credits
  ∧ (∃ k v, st2.generated_credits = assocSet st.generated_credits k v)

/-- Total number of recorded bucketed files. -/
def knownTotal (m : List (String × List String)) : Nat :=
  (m.map (fun p => p.2.length)).sum

theorem knownTotal_map_append (m : List (String × List String)) (k v : String) :
    knownTotal (m.map (fun p => if p.1 == k then (p.1, p.2 ++ [v]) else p))
      = knownTotal m + m.countP (fun p => p.1 == k) := by
  induction m with
  | nil => simp [knownTotal]
  | cons p rest ih =>
    simp only [knownTotal, List.map_cons, List.sum_cons, List.countP_cons] at ih ⊢
    by_cases h : (p.1 == k) = true
    · rw [if_pos h, if_pos h]
      simp only [List.length_append, List.length_cons, List.length_nil]
      omega
    · rw [if_neg h, if_neg h]
      omega

theorem dictAppend_ne (m : List (String × List String)) (k v : String) :
    dictAppend m k v ≠ m := by
  unfold dictAppend
  split
  · rename_i hany
    intro h
    have h2 := congrArg knownTotal h
    rw [knownTotal_map_append] at h2
    have h3 : 0 < m.countP (fun p => p.1 == k) := by
      rcases List.any_eq_true.mp hany with ⟨p, hp, hpk⟩
      exact List.countP_pos.mpr ⟨p, hp, hpk⟩
    omega
  · intro h
    have h2 := congrArg List.length h
    simp at h2

theorem not_rd_rb (st st2 : CreditsUpdater) :
    ¬ (RecordedDifficult st st2 ∧ RecordedBucketed st st2) := by
  rintro ⟨⟨⟨p, hp⟩, _, _⟩, hd, _, _⟩
  rw [hd] at hp
  have := congrArg List.length hp
  simp at this

theorem not_rd_rv (st st2 : CreditsUpdater) :
    ¬ (RecordedDifficult st st2 ∧ RecordedVerbatim st st2) := by
  rintro ⟨⟨⟨p, hp⟩, _, _⟩, hd, _, _⟩
  rw [hd] at hp
  have := congrArg List.length hp
  simp at this

theorem not_rb_rv (st st2 : CreditsUpdater) :
    ¬ (RecordedBucketed st st2 ∧ RecordedVerbatim st st2) := by
  rintro ⟨⟨_, ⟨lic, f, hk⟩, _⟩, _, hk2, _⟩
  rw [hk2] at hk
  exact dictAppend_ne st.known_credits lic f hk.symm

/-- Every HandleNonLGPLFile call either halts or records exactly one entry:
a bucketed file or a verbatim credit. -/
theorem handle_cases (self : CreditsUpdater) (cwd : String)
    (cl : List String) (fp : String) :
    (∃ e, HandleNonLGPLFile self cwd cl fp = .error e)
    ∨ (∃ lic f, HandleNonLGPLFile self cwd cl fp
        = .ok { self with known_credits := dictAppend self.known_credits lic f })
    ∨ (∃ k v, HandleNonLGPLFile self cwd cl fp
        = .ok { self with
                generated_credits := assocSet self.generated_credits k v }) := by
  cases hl : known_file_map.lookup (relpath cwd fp (abspath cwd self.source_dir)) with
  | none =>
    right; right
    exact ⟨relpath cwd fp (abspath cwd self.source_dir),
      pyStrip (ConcatLines cl), by simp only [HandleNonLGPLFile, hl]⟩
  | some fi =>
    by_cases hd : md5HexOfString (ConcatLines cl) ≠ fi.license_digest
    · left
      exact ⟨digestMismatchMessage (relpath cwd fp (abspath cwd self.source_dir))
          fi.license_digest (md5HexOfString (ConcatLines cl)),
        by simp only [HandleNonLGPLFile, hl]; rw [if_pos hd]⟩
    · right; left
      exact ⟨fi.license, relpath cwd fp (abspath cwd self.source_dir),
        by simp only [HandleNonLGPLFile, hl]; rw [if_neg hd]⟩

/-- C9.  Every ProcessFile call either halts (digest mismatch) or records
exactly one classification result: the file goes to the unparseable list, or
to exactly one bucket, or becomes one verbatim entry — and no two of these
happen at once. -/
theorem claim_C9_exactly_one_result (self : CreditsUpdater)
    (cwd file_path0 : String) (content : List String) :
    (∃ e, ProcessFile self cwd file_path0 content = .error e)
    ∨ (∃ st2, ProcessFile self cwd file_path0 content = .ok st2
        ∧ (RecordedDifficult self st2 ∨ RecordedBucketed self st2
            ∨ RecordedVerbatim self st2)
        ∧ ¬ (RecordedDifficult self st2 ∧ RecordedBucketed self st2)
        ∧ ¬ (RecordedDifficult self st2 ∧ RecordedVerbatim self st2)
        ∧ ¬ (RecordedBucketed self st2 ∧ RecordedVerbatim self st2)) := by
  have hfin : ∀ st2, ProcessFile self cwd file_path0 content = .ok st2 →
      (RecordedDifficult self st2 ∨ RecordedBucketed self st2
        ∨ RecordedVerbatim self st2) →
      (∃ e, ProcessFile self cwd file_path0 content = .error e)
      ∨ (∃ st2, ProcessFile self cwd file_path0 content = .ok st2
          ∧ (RecordedDifficult self st2 ∨ RecordedBucketed self st2
              ∨ RecordedVerbatim self st2)
          ∧ ¬ (RecordedDifficult self st2 ∧ RecordedBucketed self st2)
          ∧ ¬ (RecordedDifficult self st2 ∧ RecordedVerbatim self st2)
          ∧ ¬ (RecordedBucketed self st2 ∧ RecordedVerbatim self st2)) := by
    intro st2 hpe hrec
    exact Or.inr ⟨st2, hpe, hrec, not_rd_rb _ _, not_rd_rv _ _, not_rb_rv _ _⟩
  cases he : ExtractFirstCommentBlock (resolvedPath self cwd file_path0) content with
  | none =>
    have hpe : ProcessFile self cwd file_path0 content
        = .ok { self with difficult_files :=
            self.difficult_files ++ [resolvedPath self cwd file_path0] } := by
      simp only [ProcessFile, he]
    exact hfin _ hpe (Or.inl ⟨⟨_, rfl⟩, rfl, rfl⟩)
  | some cl =>
    by_cases hemp : cl.isEmpty
    · have hpe : ProcessFile self cwd file_path0 content
          = .ok { self with difficult_files :=
              self.difficult_files ++ [resolvedPath self cwd file_path0] } := by
        simp only [ProcessFile, he]
        rw [if_pos hemp]
      exact hfin _ hpe (Or.inl ⟨⟨_, rfl⟩, rfl, rfl⟩)
    · have hvia : ∀ fp, ProcessFile self cwd file_path0 content
            = HandleNonLGPLFile self cwd cl fp →
          (∃ e, ProcessFile self cwd file_path0 content = .error e)
          ∨ (∃ st2, ProcessFile self cwd file_path0 content = .ok st2
              ∧ (RecordedDifficult self st2 ∨ RecordedBucketed self st2
                  ∨ RecordedVerbatim self st2)
              ∧ ¬ (RecordedDifficult self st2 ∧ RecordedBucketed self st2)
              ∧ ¬ (RecordedDifficult self st2 ∧ RecordedVerbatim self st2)
              ∧ ¬ (RecordedBucketed self st2 ∧ RecordedVerbatim self st2)) := by
        intro fp hpe
        rcases handle_cases self cwd cl fp with ⟨e, hh⟩ | ⟨lic, f, hh⟩ | ⟨k, v, hh⟩
        · exact Or.inl ⟨e, hpe.trans hh⟩
        · exact hfin _ (hpe.trans hh) (Or.inr (Or.inl ⟨rfl, ⟨lic, f, rfl⟩, rfl⟩))
        · exact hfin _ (hpe.trans hh) (Or.inr (Or.inr ⟨rfl, rfl, ⟨k, v, rfl⟩⟩))
      cases hn : NormalizeCommentLines cl with
      | none =>
        exact hvia _ (by simp only [ProcessFile, he, hn]; rw [if_neg hemp])
      | some nl =>
        by_cases hnemp : nl.isEmpty
        · exact hvia _ (by
            simp only [ProcessFile, he, hn]
            rw [if_neg hemp, if_pos hnemp])
        · by_cases hr : LGPL_MATCH_THRESHOLD
              ≤ ratioQ (ConcatLines nl) FFMPEG_LGPL_REF
          · have hpe : ProcessFile self cwd file_path0 content
                = .ok { self with
                        known_credits :=
                          dictAppend self.known_credits License.LGPL
                            (resolvedPath self cwd file_path0) } := by
              simp only [ProcessFile, he, hn]
              rw [if_neg hemp, if_neg hnemp, if_pos hr]
            exact hfin _ hpe (Or.inr (Or.inl ⟨rfl, ⟨_, _, rfl⟩, rfl⟩))
          · exact hvia _ (by
              simp only [ProcessFile, he, hn]
              rw [if_neg hemp, if_neg hnemp, if_neg hr])

/-
  Unfolding equations and basic facts about the extraction loop.
-/

theorem extractLoop_zero (s e : String → Bool) (c : List String) (i : Nat)
    (fs : Bool) (acc : List String) :
    extractLoop s e c 0 i fs acc = (fs, false, acc) := rfl

theorem extractLoop_succ (s e : String → Bool) (c : List String)
    (fuel i : Nat) (fs : Bool) (acc : List String) :
    extractLoop s e c (fuel + 1) i fs acc =
      if (fs || s (getLine c i)) = true then
        (if e (getLine c i) = true then
          (fs || s (getLine c i), true, acc ++ [getLine c i])
         else extractLoop s e c fuel (i + 1) (fs || s (getLine c i))
           (acc ++ [getLine c i]))
      else extractLoop s e c fuel (i + 1) (fs || s (getLine c i)) acc := rfl

theorem extractLoop_end_ne_nil (s e : String → Bool) (c : List String) :
    ∀ (fuel i : Nat) (fs : Bool) (acc : List String),
      (extractLoop s e c fuel i fs acc).2.1 = true →
      (extractLoop s e c fuel i fs acc).2.2 ≠ [] := by
  intro fuel
  induction fuel with
  | zero =>
    intro i fs acc h
    simp [extractLoop_zero] at h
  | succ n ih =>
    intro i fs acc h
    rw [extractLoop_succ] at h ⊢
    by_cases h1 : (fs || s (getLine c i)) = true
    · rw [if_pos h1] at h ⊢
      by_cases h2 : e (getLine c i) = true
      · rw [if_pos h2]
        simp
      · rw [if_neg h2] at h ⊢
        exact ih _ _ _ h
    · rw [if_neg h1] at h ⊢
      exact ih _ _ _ h

theorem strip_length (l : List String) (b : Bool) :
    (StripCommentChars l b).length = l.length := by
  unfold StripCommentChars
  split
  · simp
  · simp [updateAt]

theorem extractWith_some_ne_nil (s e : String → Bool) (b : Bool)
    (content : List String) (cl : List String)
    (h : extractWith s e b content = some cl) : cl ≠ [] := by
  simp only [extractWith] at h
  split at h
  · rename_i hcond
    have hend : (extractLoop s e content 100 0 false []).2.1 = true := by
      have h2 := hcond
      simp only [Bool.and_eq_true] at h2
      exact h2.2
    have hne := extractLoop_end_ne_nil s e content 100 0 false [] hend
    have hcl : cl = StripCommentChars
        (extractLoop s e content 100 0 false []).2.2 b :=
      (Option.some.inj h).symm
    subst hcl
    intro hnil
    have h2 := congrArg List.length hnil
    rw [strip_length] at h2
    simp only [List.length_nil] at h2
    exact hne (List.length_eq_zero.mp h2)
  · exact absurd h (by simp)

theorem extract_some_ne_nil (fp : String) (content : List String)
    (cl : List String)
    (h : ExtractFirstCommentBlock fp content = some cl) : cl ≠ [] := by
  simp only [ExtractFirstCommentBlock] at h
  split at h
  · exact extractWith_some_ne_nil _ _ _ _ _ h
  · split at h
    · exact extractWith_some_ne_nil _ _ _ _ _ h
    · exact extractWith_some_ne_nil _ _ _ _ _ h

/-- C4.  A file whose comment block normalizes is classified into the LGPL
bucket exactly when the similarity ratio of its normalized text against the
reference meets the 0.9 threshold; below the threshold, or when
normalization fails, the file goes to the bucket resolver
(HandleNonLGPLFile). -/
theorem claim_C4_similarity_threshold (self : CreditsUpdater)
    (cwd file_path0 : String) (content : List String)
    (comment_lines : List String)
    (hext : ExtractFirstCommentBlock (resolvedPath self cwd file_path0) content
      = some comment_lines) :
    (∀ normalized_lines,
      NormalizeCommentLines comment_lines = some normalized_lines →
      (LGPL_MATCH_THRESHOLD
          ≤ ratioQ (ConcatLines normalized_lines) FFMPEG_LGPL_REF →
        ProcessFile self cwd file_path0 content
          = .ok { self with
                  known_credits := dictAppend self.known_credits License.LGPL
                    (resolvedPath self cwd file_path0) })
      ∧ (ratioQ (ConcatLines normalized_lines) FFMPEG_LGPL_REF
          < LGPL_MATCH_THRESHOLD →
        ProcessFile self cwd file_path0 content
          = HandleNonLGPLFile self cwd comment_lines
              (resolvedPath self cwd file_path0)))
    ∧ (NormalizeCommentLines comment_lines = none →
      ProcessFile self cwd file_path0 content
        = HandleNonLGPLFile self cwd comment_lines
            (resolvedPath self cwd file_path0)) := by
  have hne := extract_some_ne_nil _ _ _ hext
  have hemp : ¬ comment_lines.isEmpty = true := by
    simpa [List.isEmpty_iff] using hne
  constructor
  · intro nl hn
    have hnne := normalize_some_ne_nil _ _ hn
    have hnemp : ¬ nl.isEmpty = true := by simpa [List.isEmpty_iff] using hnne
    constructor
    · intro hr
      simp only [ProcessFile, hext, hn]
      rw [if_neg hemp, if_neg hnemp, if_pos hr]
    · intro hr
      simp only [ProcessFile, hext, hn]
      rw [if_neg hemp, if_neg hnemp, if_neg (not_le.mpr hr)]
  · intro hn
    simp only [ProcessFile, hext, hn]
    rw [if_neg hemp]

set_option maxRecDepth 1000000 in
set_option maxHeartbeats 64000000 in
theorem claim_C4_witness :
    ProcessFile (CreditsUpdater.init "/src") "/" "x.c"
        ["/* This file is part of FFmpeg */\n"]
      = HandleNonLGPLFile (CreditsUpdater.init "/src") "/"
          [" This file is part of FFmpeg \n"] "/src/x.c" := by
  have h := claim_C4_similarity_threshold (CreditsUpdater.init "/src") "/" "x.c"
    ["/* This file is part of FFmpeg */\n"] [" This file is part of FFmpeg \n"]
    (by decide)
  have h2 := (h.1 [" This file is part of FFmpeg \n"] (by decide)).2 (by decide)
  exact h2.trans (by decide)

/-
  Claim C10: path forms.  The similarity classifier records the resolved
  (absolute) path; the bucket resolver records the path relative to the
  source directory.  The lemmas below show a relpath result never starts
  with a slash while the resolved path always does (for an absolute working
  directory), so the two recorded forms differ.
-/

theorem isAbs_false_of_head (x : String) (c : Char) (cs : List Char)
    (hx : x.data = c :: cs) (hc : c ≠ '/') : isAbs x = false := by
  unfold isAbs
  rw [hx]
  exact beq_eq_false_iff_ne.mpr hc

theorem isAbs_true_of_head (x : String) (cs : List Char)
    (hx : x.data = '/' :: cs) : isAbs x = true := by
  unfold isAbs
  rw [hx]
  simp

theorem isAbs_append (a b : String) (h : isAbs a = true) :
    isAbs (a ++ b) = true := by
  unfold isAbs at h ⊢
  rw [String.data_append]
  cases hd : a.data with
  | nil => rw [hd] at h; simp at h
  | cons c cs =>
    rw [hd] at h
    simp only [List.cons_append]
    exact h

theorem isAbs_append_false (a b : String) (ha : a ≠ "")
    (h : isAbs a = false) : isAbs (a ++ b) = false := by
  unfold isAbs at h ⊢
  rw [String.data_append]
  cases hd : a.data with
  | nil =>
    exact absurd (String.ext hd) ha
  | cons c cs =>
    rw [hd] at h
    simp only [List.cons_append]
    exact h

theorem partsAux_no_slash (cs : List Char) :
    ∀ (cur : List Char), (∀ c ∈ cur, c ≠ '/') →
      ∀ p ∈ partsAux cs cur, ∀ c ∈ p, c ≠ '/' := by
  induction cs with
  | nil =>
    intro cur hcur p hp c hc
    simp only [partsAux, List.mem_singleton] at hp
    subst hp
    exact hcur c (List.mem_reverse.mp hc)
  | cons d rest ih =>
    intro cur hcur p hp c hc
    by_cases hd : d = '/'
    · rw [partsAux, if_pos hd] at hp
      rcases List.mem_cons.mp hp with h1 | h1
      · subst h1
        exact hcur c (List.mem_reverse.mp hc)
      · exact ih [] (by simp) p h1 c hc
    · rw [partsAux, if_neg hd] at hp
      refine ih (d :: cur) ?_ p hp c hc
      intro x hx
      rcases List.mem_cons.mp hx with h1 | h1
      · subst h1; exact hd
      · exact hcur x h1

theorem pathParts_mem (s : String) :
    ∀ x ∈ pathParts s, x ≠ "" ∧ ∀ c ∈ x.data, c ≠ '/' := by
  intro x hx
  unfold pathParts at hx
  have hmem := List.mem_of_mem_filter hx
  have hne : x ≠ "" := by
    have := List.of_mem_filter hx
    simpa using this
  refine ⟨hne, ?_⟩
  unfold splitSlash at hmem
  rcases List.mem_map.mp hmem with ⟨l, hl, hxl⟩
  subst hxl
  intro c hc
  exact partsAux_no_slash s.data [] (by simp) l hl c hc

theorem joinParts_not_abs (l : List String)
    (h : ∀ x ∈ l, x ≠ "" ∧ ∀ c ∈ x.data, c ≠ '/') :
    isAbs (joinParts l) = false := by
  cases l with
  | nil => decide
  | cons x xs =>
    have hx := h x (List.mem_cons_self x xs)
    cases hd : x.data with
    | nil => exact absurd (String.ext hd) hx.1
    | cons c cs =>
      have hc : c ≠ '/' := hx.2 c (by rw [hd]; exact List.mem_cons_self c cs)
      cases xs with
      | nil =>
        simp only [joinParts]
        exact isAbs_false_of_head x c cs hd hc
      | cons y ys =>
        simp only [joinParts]
        have hassoc : x ++ "/" ++ joinParts (y :: ys)
            = x ++ ("/" ++ joinParts (y :: ys)) := by
          apply String.ext
          simp [String.data_append, List.append_assoc]
        rw [hassoc]
        refine isAbs_append_false x ("/" ++ joinParts (y :: ys)) hx.1 ?_
        exact isAbs_false_of_head x c cs hd hc

theorem relpath_not_abs (cwd p start : String) :
    isAbs (relpath cwd p start) = false := by
  unfold relpath
  split
  · decide
  · apply joinParts_not_abs
    intro x hx
    unfold relpathList at hx
    rcases List.mem_append.mp hx with h1 | h1
    · have := List.eq_of_mem_replicate h1
      subst this
      exact ⟨by decide, by decide⟩
    · exact pathParts_mem _ x (List.mem_of_mem_drop h1)

theorem initialSlashCount_pos (q : String) (h : isAbs q = true) :
    1 ≤ initialSlashCount q := by
  unfold isAbs at h
  unfold initialSlashCount
  cases hd : q.data with
  | nil => rw [hd] at h; simp at h
  | cons c cs =>
    rw [hd] at h
    have hc : c = '/' := by simpa using h
    subst hc
    rw [if_neg (by simp)]
    split
    · omega
    · split <;> omega

theorem normpath_isAbs (q : String) (h : isAbs q = true) :
    isAbs (normpath q) = true := by
  have hq : q ≠ "" := by
    intro he
    rw [he] at h
    exact absurd h (by decide)
  have hpos := initialSlashCount_pos q h
  obtain ⟨m, hm⟩ : ∃ m, initialSlashCount q = m + 1 :=
    ⟨initialSlashCount q - 1, by omega⟩
  have hdata : ((⟨List.replicate (initialSlashCount q) '/'⟩ : String)
      ++ joinParts (normpathComps q)).data
        = '/' :: (List.replicate m '/' ++ (joinParts (normpathComps q)).data) := by
    rw [String.data_append, hm, List.replicate_succ]
    rfl
  have hne2 : ((⟨List.replicate (initialSlashCount q) '/'⟩ : String)
      ++ joinParts (normpathComps q)) ≠ "" := by
    intro he
    have := congrArg String.data he
    rw [hdata] at this
    exact absurd this (by simp)
  unfold normpath
  rw [if_neg hq, if_neg hne2]
  exact isAbs_true_of_head _ _ hdata

theorem abspath_isAbs (cwd q : String) (hcwd : isAbs cwd = true) :
    isAbs (abspath cwd q) = true := by
  unfold abspath
  by_cases hq : isAbs q = true
  · rw [if_pos hq]
    exact normpath_isAbs q hq
  · rw [if_neg hq]
    apply normpath_isAbs
    unfold joinPath
    rw [if_neg hq]
    by_cases h2 : cwd = "" ∨ strEndsWith cwd "/" = true
    · rw [if_pos h2]
      exact isAbs_append cwd q hcwd
    · rw [if_neg h2]
      exact isAbs_append (cwd ++ "/") q (isAbs_append cwd "/" hcwd)

theorem resolvedPath_isAbs (self : CreditsUpdater) (cwd p0 : String)
    (hcwd : isAbs cwd = true) : isAbs (resolvedPath self cwd p0) = true := by
  unfold resolvedPath
  by_cases hp : isAbs p0 = true
  · rw [if_pos hp]
    exact hp
  · rw [if_neg hp]
    exact abspath_isAbs cwd _ hcwd

/-- C10.  The similarity classifier records the LGPL file under the resolved
absolute path, while the bucket resolver records known-bucket and verbatim
files under the path relative to the source directory; the resolved path is
absolute and the relative path is not, so for one and the same input the two
collections use different path forms. -/
theorem claim_C10_path_forms (self : CreditsUpdater) (cwd file_path0 : String)
    (content : List String) (hcwd : isAbs cwd = true) :
    (∀ comment_lines normalized_lines,
      ExtractFirstCommentBlock (resolvedPath self cwd file_path0) content
        = some comment_lines →
      NormalizeCommentLines comment_lines = some normalized_lines →
      LGPL_MATCH_THRESHOLD
          ≤ ratioQ (ConcatLines normalized_lines) FFMPEG_LGPL_REF →
      ProcessFile self cwd file_path0 content
        = .ok { self with
                known_credits := dictAppend self.known_credits License.LGPL
                  (resolvedPath self cwd file_path0) })
    ∧ (∀ comment_lines fi,
      known_file_map.lookup (relpath cwd (resolvedPath self cwd file_path0)
          (abspath cwd self.source_dir)) = some fi →
      md5HexOfString (ConcatLines comment_lines) = fi.license_digest →
      HandleNonLGPLFile self cwd comment_lines (resolvedPath self cwd file_path0)
        = .ok { self with
                known_credits := dictAppend self.known_credits fi.license
                  (relpath cwd (resolvedPath self cwd file_path0)
                    (abspath cwd self.source_dir)) })
    ∧ (∀ comment_lines,
      known_file_map.lookup (relpath cwd (resolvedPath self cwd file_path0)
          (abspath cwd self.source_dir)) = none →
      HandleNonLGPLFile self cwd comment_lines (resolvedPath self cwd file_path0)
        = .ok { self with
                generated_credits := assocSet self.generated_credits
                  (relpath cwd (resolvedPath self cwd file_path0)
                    (abspath cwd self.source_dir))
                  (pyStrip (ConcatLines comment_lines)) })
    ∧ isAbs (resolvedPath self cwd file_path0) = true
    ∧ isAbs (relpath cwd (resolvedPath self cwd file_path0)
        (abspath cwd self.source_dir)) = false
    ∧ resolvedPath self cwd file_path0
      ≠ relpath cwd (resolvedPath self cwd file_path0)
          (abspath cwd self.source_dir) := by
  have habs := resolvedPath_isAbs self cwd file_path0 hcwd
  have hrel := relpath_not_abs cwd (resolvedPath self cwd file_path0)
    (abspath cwd self.source_dir)
  refine ⟨?_, ?_, ?_, habs, hrel, ?_⟩
  · intro cl nl hext hn hr
    have hne := extract_some_ne_nil _ _ _ hext
    have hemp : ¬ cl.isEmpty = true := by simpa [List.isEmpty_iff] using hne
    have hnne := normalize_some_ne_nil _ _ hn
    have hnemp : ¬ nl.isEmpty = true := by simpa [List.isEmpty_iff] using hnne
    simp only [ProcessFile, hext, hn]
    rw [if_neg hemp, if_neg hnemp, if_pos hr]
  · intro cl fi hlook heq
    simp only [HandleNonLGPLFile, hlook]
    rw [if_neg (by simp [heq])]
  · intro cl hlook
    simp only [HandleNonLGPLFile, hlook]
  · intro hcontra
    rw [hcontra] at habs
    rw [habs] at hrel
    exact absurd hrel (by simp)

theorem claim_C10_witness :
    isAbs (resolvedPath (CreditsUpdater.init "/src") "/" "x.c") = true
    ∧ isAbs (relpath "/" (resolvedPath (CreditsUpdater.init "/src") "/" "x.c")
        (abspath "/" "/src")) = false
    ∧ resolvedPath (CreditsUpdater.init "/src") "/" "x.c"
      ≠ relpath "/" (resolvedPath (CreditsUpdater.init "/src") "/" "x.c")
          (abspath "/" "/src") := by
  have h := claim_C10_path_forms (CreditsUpdater.init "/src") "/" "x.c"
    ["/* hi */\n"] (by decide)
  exact ⟨h.2.2.2.1, h.2.2.2.2.1, h.2.2.2.2.2⟩

/-
  Claim C1: render order of the credits document.
-/

instance : DecidableRel (fun x y : String × String => x.1 ≤ y.1) :=
  fun a b => inferInstanceAs (Decidable (a.1 ≤ b.1))

instance : IsTotal (String × String) (fun x y => x.1 ≤ y.1) :=
  ⟨fun a b => le_total a.1 b.1⟩

instance : IsTrans (String × String) (fun x y => x.1 ≤ y.1) :=
  ⟨fun _ _ _ hab hbc => le_trans hab hbc⟩

theorem empty_str_append (s : String) : ("" : String) ++ s = s := by
  apply String.ext
  simp [String.data_append]

theorem concatAll_if_filter (l : List String) (f : String → String) :
    concatAll (l.map (fun k => if k = License.LGPL then "" else f k))
      = concatAll ((l.filter (fun k => decide (¬ k = License.LGPL))).map f) := by
  induction l with
  | nil => rfl
  | cons x xs ih =>
    by_cases hx : x = License.LGPL
    · rw [List.map_cons, if_pos hx, concatAll, empty_str_append, ih,
        List.filter_cons]
      have hd : (decide (¬ x = License.LGPL)) = false := by simp [hx]
      rw [hd]
      simp
    · rw [List.map_cons, if_neg hx, concatAll, ih, List.filter_cons]
      have hd : (decide (¬ x = License.LGPL)) = true := by simp [hx]
      rw [hd]
      simp [concatAll]

/-- C1.  The rendered credits document is, in order: the external overview
text, the verbatim entries sorted ascending by path (each preceded by the
separator and its path), one section per non-LGPL bucket in ascending
bucket-name order (each listing that bucket's sorted file paths and then its
external license text), and the full LGPL reference text last —
unconditionally, although the key LGPL sorts between JPEG and MIPS. -/
theorem claim_C1_render_order (self : CreditsUpdater) (license_md : String)
    (license_texts : String → String) (hdiff : self.difficult_files = []) :
    ∃ (verb : List (String × String)) (buckets : List String)
      (fl : String → List String),
      List.Perm verb self.generated_credits
      ∧ List.Pairwise (fun x y : String × String => x.1 ≤ y.1) verb
      ∧ List.Perm buckets ((self.known_credits.map Prod.fst).filter
          (fun k => decide (¬ k = License.LGPL)))
      ∧ List.Pairwise (fun a b : String => a ≤ b) buckets
      ∧ License.LGPL ∉ buckets
      ∧ (∀ k, List.Perm (fl k) ((self.known_credits.lookup k).getD [])
          ∧ List.Pairwise (fun a b : String => a ≤ b) (fl k))
      ∧ WriteCredits self license_md license_texts = .ok
          (license_md
            ++ concatAll (verb.map
                (fun p => LICENSE_SEPARATOR ++ p.1 ++ "\n\n" ++ p.2))
            ++ concatAll (buckets.map (fun k =>
                LICENSE_SEPARATOR ++ String.intercalate "\n" (fl k) ++ "\n\n"
                  ++ license_texts k))
            ++ LICENSE_SEPARATOR ++ license_texts License.LGPL) := by
  refine ⟨sortPairsByKey self.generated_credits,
    (sortStrings (self.known_credits.map Prod.fst)).filter
      (fun k => decide (¬ k = License.LGPL)),
    fun k => sortStrings ((self.known_credits.lookup k).getD []),
    ?_, ?_, ?_, ?_, ?_, ?_, ?_⟩
  · exact List.perm_insertionSort _ _
  · exact List.sorted_insertionSort _ _
  · exact (List.perm_insertionSort _ _).filter _
  · exact (List.sorted_insertionSort _ _).filter _
  · intro hmem
    have := List.of_mem_filter hmem
    simp at this
  · intro k
    exact ⟨List.perm_insertionSort _ _, List.sorted_insertionSort _ _⟩
  · unfold WriteCredits
    rw [if_neg (by simp [hdiff])]
    rw [concatAll_if_filter]

theorem claim_C1_witness :
    ∃ (verb : List (String × String)) (buckets : List String)
      (fl : String → List String),
      List.Perm verb [("b.c", "LB"), ("a.c", "LA")]
      ∧ List.Pairwise (fun x y : String × String => x.1 ≤ y.1) verb
      ∧ List.Perm buckets
          (((([("MIPS", ["z.c", "m.c"]), ("JPEG", ["j.c"])] :
              List (String × List String)).map Prod.fst)).filter
            (fun k => decide (¬ k = License.LGPL)))
      ∧ List.Pairwise (fun a b : String => a ≤ b) buckets
      ∧ License.LGPL ∉ buckets
      ∧ (∀ k, List.Perm (fl k)
            ((([("MIPS", ["z.c", "m.c"]), ("JPEG", ["j.c"])] :
              List (String × List String)).lookup k).getD [])
          ∧ List.Pairwise (fun a b : String => a ≤ b) (fl k))
      ∧ WriteCredits
          { source_dir := "/src", output_file := DEFAULT_OUTPUT_FILE,
            difficult_files := [],
            known_credits := [("MIPS", ["z.c", "m.c"]), ("JPEG", ["j.c"])],
            generated_credits := [("b.c", "LB"), ("a.c", "LA")] }
          "OVERVIEW\n" (fun k => "TEXT-" ++ k ++ "\n") = .ok
          ("OVERVIEW\n"
            ++ concatAll (verb.map
                (fun p => LICENSE_SEPARATOR ++ p.1 ++ "\n\n" ++ p.2))
            ++ concatAll (buckets.map (fun k =>
                LICENSE_SEPARATOR ++ String.intercalate "\n" (fl k) ++ "\n\n"
                  ++ ("TEXT-" ++ k ++ "\n")))
            ++ LICENSE_SEPARATOR ++ ("TEXT-" ++ License.LGPL ++ "\n")) :=
  claim_C1_render_order
    { source_dir := "/src", output_file := DEFAULT_OUTPUT_FILE,
      difficult_files := [],
      known_credits := [("MIPS", ["z.c", "m.c"]), ("JPEG", ["j.c"])],
      generated_credits := [("b.c", "LB"), ("a.c", "LA")] }
    "OVERVIEW\n" (fun k => "TEXT-" ++ k ++ "\n") rfl

/-
  Claim C5: characterization of the C-style extraction within the 100-line
  window.
-/

theorem extractLoop_no_start (s e : String → Bool) (c : List String) :
    ∀ (fuel i : Nat) (acc : List String),
      (∀ k, k < fuel → s (getLine c (i + k)) = false) →
      extractLoop s e c fuel i false acc = (false, false, acc) := by
  intro fuel
  induction fuel with
  | zero => intro i acc h; rfl
  | succ n ih =>
    intro i acc h
    rw [extractLoop_succ]
    have h0 : s (getLine c i) = false := by simpa using h 0 (Nat.succ_pos n)
    rw [if_neg (by simp [h0])]
    rw [h0]
    simp only [Bool.or_false]
    exact ih (i + 1) acc (fun k hk => by
      have h2 := h (k + 1) (by omega)
      rw [show i + 1 + k = i + (k + 1) by omega]
      exact h2)

theorem extractLoop_skip (s e : String → Bool) (c : List String) :
    ∀ (d : Nat), ∀ (fuel i : Nat) (acc : List String), d ≤ fuel →
      (∀ k, k < d → s (getLine c (i + k)) = false) →
      extractLoop s e c fuel i false acc
        = extractLoop s e c (fuel - d) (i + d) false acc := by
  intro d
  induction d with
  | zero => intro fuel i acc hd h; simp
  | succ m ih =>
    intro fuel i acc hd h
    cases fuel with
    | zero => omega
    | succ n =>
      rw [extractLoop_succ]
      have h0 : s (getLine c i) = false := by simpa using h 0 (by omega)
      rw [if_neg (by simp [h0])]
      rw [h0]
      simp only [Bool.or_false]
      have hrec := ih n (i + 1) acc (by omega) (fun k hk => by
        have h2 := h (k + 1) (by omega)
        rw [show i + 1 + k = i + (k + 1) by omega]
        exact h2)
      rw [hrec]
      have e1 : n - m = n + 1 - (m + 1) := by omega
      have e2 : i + 1 + m = i + (m + 1) := by omega
      rw [e1, e2]

theorem extractLoop_enter (s e : String → Bool) (c : List String)
    (fuel i : Nat) (acc : List String) (hs : s (getLine c i) = true) :
    extractLoop s e c (fuel + 1) i false acc
      = extractLoop s e c (fuel + 1) i true acc := by
  rw [extractLoop_succ, extractLoop_succ]
  rw [hs]
  simp

theorem extractLoop_collect_end (s e : String → Bool) (c : List String) :
    ∀ (fuel j i : Nat) (acc : List String), j < fuel →
      e (getLine c (i + j)) = true →
      (∀ k, k < j → e (getLine c (i + k)) = false) →
      extractLoop s e c fuel i true acc
        = (true, true, acc ++ (List.range' i (j + 1)).map (getLine c)) := by
  intro fuel
  induction fuel with
  | zero => intro j i acc hj; omega
  | succ n ih =>
    intro j i acc hj hend hpre
    rw [extractLoop_succ]
    rw [if_pos (by simp)]
    cases j with
    | zero =>
      rw [if_pos (by simpa using hend)]
      simp [List.range']
    | succ m =>
      have h0 : e (getLine c i) = false := by simpa using hpre 0 (by omega)
      rw [if_neg (by simp [h0])]
      have hrec := ih m (i + 1) (acc ++ [getLine c i]) (by omega)
        (by have := hend; rw [show i + (m + 1) = i + 1 + m by omega] at this; exact this)
        (fun k hk => by
          have := hpre (k + 1) (by omega)
          rw [show i + (k + 1) = i + 1 + k by omega] at this
          exact this)
      simp only [Bool.true_or]
      rw [hrec]
      simp [List.range'_succ, List.append_assoc]

theorem extractLoop_collect_no_end (s e : String → Bool) (c : List String) :
    ∀ (fuel i : Nat) (acc : List String),
      (∀ k, k < fuel → e (getLine c (i + k)) = false) →
      (extractLoop s e c fuel i true acc).2.1 = false := by
  intro fuel
  induction fuel with
  | zero => intro i acc h; rfl
  | succ n ih =>
    intro i acc h
    rw [extractLoop_succ]
    rw [if_pos (by simp)]
    have h0 : e (getLine c i) = false := by simpa using h 0 (by omega)
    rw [if_neg (by simp [h0])]
    exact ih (i + 1) (acc ++ [getLine c i]) (fun k hk => by
      have h2 := h (k + 1) (by omega)
      rw [show i + 1 + k = i + (k + 1) by omega]
      exact h2)

/-- C5.  For a C-style file: when some line of the first hundred contains a
block start and a block end occurs at or after it within the window, the
extractor succeeds with a non-empty list, namely the delimiter-stripped
lines from the first start line through the first end line at or after it;
when no start line has an end line at or after it inside the window
(including the case of no start at all), the extractor returns none. -/
theorem claim_C5_extractor_window (file_path : String) (content : List String)
    (hasm : strEndsWith file_path ".asm" = false)
    (hS : (strEndsWith file_path ".S" && asmCommentPre (getLine content 0)) = false) :
    ((∃ i, i < 100 ∧ cStart (getLine content i) = true
        ∧ ∃ j, i ≤ j ∧ j < 100 ∧ cEnd (getLine content j) = true) →
      ∃ ls i j, ExtractFirstCommentBlock file_path content = some ls
        ∧ ls ≠ []
        ∧ i ≤ j ∧ j < 100
        ∧ ls = StripCommentChars
            ((List.range' i (j + 1 - i)).map (getLine content)) false)
    ∧ ((∀ i, i < 100 → cStart (getLine content i) = true →
        ∀ j, i ≤ j → j < 100 → cEnd (getLine content j) = false) →
      ExtractFirstCommentBlock file_path content = none) := by
  have hred : ExtractFirstCommentBlock file_path content
      = extractWith cStart cEnd false content := by
    simp only [ExtractFirstCommentBlock, hS, hasm]
    simp
  constructor
  · rintro ⟨i1, hi1, hs1, j1, hij1, hj1, he1⟩
    have hPex : ∃ i, i < 100 ∧ cStart (getLine content i) = true := ⟨i1, hi1, hs1⟩
    obtain ⟨hi0lt, hi0start⟩ := Nat.find_spec hPex
    have hi0le : Nat.find hPex ≤ i1 := Nat.find_min' hPex ⟨hi1, hs1⟩
    have hQex : ∃ j, (Nat.find hPex ≤ j ∧ j < 100)
        ∧ cEnd (getLine content j) = true :=
      ⟨j1, ⟨le_trans hi0le hij1, hj1⟩, he1⟩
    obtain ⟨⟨hj0ge, hj0lt⟩, hj0end⟩ := Nat.find_spec hQex
    have hskip := extractLoop_skip cStart cEnd content (Nat.find hPex) 100 0 []
      (by omega)
      (fun k hk => by
        have hnot := Nat.find_min hPex hk
        simp only [Nat.zero_add]
        by_cases hk100 : k < 100
        · by_contra hcon
          exact hnot ⟨hk100, by simpa using hcon⟩
        · omega)
    obtain ⟨m, hm⟩ : ∃ m, 100 - Nat.find hPex = m + 1 :=
      ⟨100 - Nat.find hPex - 1, by omega⟩
    rw [hm] at hskip
    simp only [Nat.zero_add] at hskip
    have henter := extractLoop_enter cStart cEnd content m (Nat.find hPex) []
      hi0start
    have hcollect := extractLoop_collect_end cStart cEnd content (m + 1)
      (Nat.find hQex - Nat.find hPex) (Nat.find hPex) [] (by omega)
      (by rw [show Nat.find hPex + (Nat.find hQex - Nat.find hPex)
            = Nat.find hQex by omega]
          exact hj0end)
      (fun k hk => by
        have hnot := Nat.find_min hQex (show Nat.find hPex + k < Nat.find hQex by omega)
        by_contra hcon
        exact hnot ⟨⟨by omega, by omega⟩, by simpa using hcon⟩)
    have hloop : extractLoop cStart cEnd content 100 0 false []
        = (true, true, [] ++ (List.range' (Nat.find hPex)
            (Nat.find hQex - Nat.find hPex + 1)).map (getLine content)) := by
      rw [hskip, henter, hcollect]
    refine ⟨StripCommentChars ((List.range' (Nat.find hPex)
        (Nat.find hQex + 1 - Nat.find hPex)).map (getLine content)) false,
      Nat.find hPex, Nat.find hQex, ?_, ?_, hj0ge, hj0lt, rfl⟩
    · rw [hred]
      simp only [extractWith, hloop]
      rw [show Nat.find hQex + 1 - Nat.find hPex
          = Nat.find hQex - Nat.find hPex + 1 by omega]
      simp
    · intro hnil
      have h2 := congrArg List.length hnil
      rw [strip_length] at h2
      simp only [List.length_map, List.length_range', List.length_nil] at h2
      omega
  · intro hno
    rw [hred]
    by_cases hs : ∃ i, i < 100 ∧ cStart (getLine content i) = true
    · obtain ⟨hi0lt, hi0start⟩ := Nat.find_spec hs
      have hskip := extractLoop_skip cStart cEnd content (Nat.find hs) 100 0 []
        (by omega)
        (fun k hk => by
          have hnot := Nat.find_min hs hk
          simp only [Nat.zero_add]
          by_cases hk100 : k < 100
          · by_contra hcon
            exact hnot ⟨hk100, by simpa using hcon⟩
          · omega)
      obtain ⟨m, hm⟩ : ∃ m, 100 - Nat.find hs = m + 1 :=
        ⟨100 - Nat.find hs - 1, by omega⟩
      rw [hm] at hskip
      simp only [Nat.zero_add] at hskip
      have henter := extractLoop_enter cStart cEnd content m (Nat.find hs) []
        hi0start
      have hnoend := extractLoop_collect_no_end cStart cEnd content (m + 1)
        (Nat.find hs) []
        (fun k hk => hno (Nat.find hs) hi0lt hi0start (Nat.find hs + k)
          (by omega) (by omega))
      simp only [extractWith, hskip, henter]
      rw [Bool.and_comm]
      rw [hnoend]
      simp
    · have hall : ∀ k, k < 100 → cStart (getLine content (0 + k)) = false := by
        intro k hk
        simp only [Nat.zero_add]
        by_contra hcon
        exact hs ⟨k, hk, by simpa using hcon⟩
      have hloop := extractLoop_no_start cStart cEnd content 100 0 [] hall
      simp only [extractWith, hloop]
      simp

theorem claim_C5_witness :
    ∃ ls i j, ExtractFirstCommentBlock "x.c" ["/* a */\n"] = some ls
      ∧ ls ≠ [] ∧ i ≤ j ∧ j < 100
      ∧ ls = StripCommentChars
          ((List.range' i (j + 1 - i)).map (getLine ["/* a */\n"])) false :=
  (claim_C5_extractor_window "x.c" ["/* a */\n"] (by decide) (by decide)).1
    ⟨0, by decide, by decide, 0, by decide, by decide, by decide⟩

theorem claim_C9_witness :
    (∃ e, ProcessFile (CreditsUpdater.init "/src") "/" "x.c" ["/* hi */\n"]
        = .error e)
    ∨ (∃ st2, ProcessFile (CreditsUpdater.init "/src") "/" "x.c" ["/* hi */\n"]
          = .ok st2
        ∧ (RecordedDifficult (CreditsUpdater.init "/src") st2
            ∨ RecordedBucketed (CreditsUpdater.init "/src") st2
            ∨ RecordedVerbatim (CreditsUpdater.init "/src") st2)
        ∧ ¬ (RecordedDifficult (CreditsUpdater.init "/src") st2
            ∧ RecordedBucketed (CreditsUpdater.init "/src") st2)
        ∧ ¬ (RecordedDifficult (CreditsUpdater.init "/src") st2
            ∧ RecordedVerbatim (CreditsUpdater.init "/src") st2)
        ∧ ¬ (RecordedBucketed (CreditsUpdater.init "/src") st2
            ∧ RecordedVerbatim (CreditsUpdater.init "/src") st2)) :=
  claim_C9_exactly_one_result (CreditsUpdater.init "/src") "/" "x.c"
    ["/* hi */\n"]

/-
  Claim C8.  The reference text begins with a newline; feeding its lines to
  the normalizer finds the marker on line index 1 and drops the leading
  blank line, so the normalized reference compared against the raw reference
  text yields 1518/1519, not 1.0.  The counterexample shows this; the
  amended statement records the three exact similarity values.
-/

set_option maxRecDepth 1000000 in
set_option maxHeartbeats 400000000 in
/-- C8, counterexample.  Normalizing the reference license text succeeds
(the marker is on line index 1) but drops the leading blank line, so
comparing the normalized reference text against the reference text itself
yields ratio 1518/1519, which is not 1.0 as the claim states. -/
theorem claim_C8_counterexample :
    (NormalizeCommentLines (splitLinesKeepEnds FFMPEG_LGPL_REF)).isSome = true
    ∧ ratioQ (ConcatLines ((NormalizeCommentLines
        (splitLinesKeepEnds FFMPEG_LGPL_REF)).getD [])) FFMPEG_LGPL_REF
      = mkRat 1518 1519
    ∧ mkRat 1518 1519 ≠ 1 :=
  ⟨by decide, by decide, by decide⟩

set_option maxRecDepth 1000000 in
set_option maxHeartbeats 400000000 in
/-- C8, amended.  The reference text compared against itself yields ratio
1.0 and the empty string against the reference yields 0.0; the normalized
reference (its leading blank line dropped) against the reference yields
1518/1519, which is not 1.0 but still meets the 0.9 threshold, so such a
header is still classified into the reference bucket. -/
theorem claim_C8_amended_similarity_values :
    ratioQ FFMPEG_LGPL_REF FFMPEG_LGPL_REF = 1
    ∧ ratioQ "" FFMPEG_LGPL_REF = 0
    ∧ LGPL_MATCH_THRESHOLD ≤ mkRat 1518 1519
    ∧ mkRat 1518 1519 ≠ 1 :=
  ⟨by decide, by decide, by decide, by decide⟩

end CreditsUpdaterModel
